import Mathlib

/-!
Verification of the crawl / durable-ingestion core of the
AI-Embedding-of-History repository.

The development shallowly embeds the Python sources:

* `scraper_crawl.py` : URL normalization (`normalize_url`, on top of the
  CPython `urllib.parse` resolution algorithm), link extraction, article
  parsing (`parse_article`) and the BFS crawl loop of `main`.
* `store_to_db.py`  : the primary ingestion run (`upsert_to_mongo`,
  `save_fallback`, `main`).
* `import_fallback.py` : the reconciliation run (`load_fallback`,
  `try_import`, `main`).

Machine integers play no role here; strings are Lean `String`s, JSON lines
of the durable log are modelled by an inductive `Line` (well-formed /
malformed / blank), store documents by `Doc`, and a Mongo collection by a
list of documents with first-match update-or-insert semantics.  Fallible
Python code (a raised exception) is modelled with `Option` / `Except`.
-/

/-! ## String primitives used by the Python sources -/

/-- Python `s.rstrip("/")` on the character list: drop every trailing slash. -/
def rstripSlashesL (l : List Char) : List Char :=
  (l.reverse.dropWhile (fun c => c = '/')).reverse

/-- Python `s.rstrip("/")`. -/
def rstripSlashes (s : String) : String :=
  ⟨rstripSlashesL s.data⟩

/-- Python `s.split("#")[0]` : the prefix of `s` before the first `#`
(the whole of `s` when no `#` occurs). -/
def splitFragment (s : String) : String :=
  ⟨s.data.takeWhile (fun c => c ≠ '#')⟩

/-- Python `pat in s` (substring containment) on character lists:
`isPrefixB pat l` decides whether `pat` is a prefix of `l`. -/
def isPrefixB : List Char → List Char → Bool
  | [], _ => true
  | _ :: _, [] => false
  | a :: as, b :: bs => a = b && isPrefixB as bs

/-- Python `pat in s` (substring containment) on character lists. -/
def containsIn (pat : List Char) : List Char → Bool
  | [] => isPrefixB pat []
  | l@(_ :: ls) => isPrefixB pat l || containsIn pat ls

/-- Python `pat in s` for strings. -/
def containsSub (s pat : String) : Bool :=
  containsIn pat.data s.data

/-- Python `s.lower()` (character-wise, as used on URLs). -/
def strLower (s : String) : String :=
  ⟨s.data.map Char.toLower⟩

/-- Python `s.strip()`: drop whitespace from both ends. -/
def strTrim (s : String) : String :=
  ⟨((s.data.dropWhile Char.isWhitespace).reverse.dropWhile
    Char.isWhitespace).reverse⟩

/-! ## CPython `urllib.parse`, the fragment used by the sources

`normalize_url` and `is_internal` in `scraper_crawl.py` call
`urllib.parse.urljoin` and `urllib.parse.urlparse`.  The definitions below
transcribe the CPython implementation (`Lib/urllib/parse.py`): scheme
splitting, netloc splitting, fragment/query splitting, parameter
splitting, `urlunparse`/`urlunsplit` re-assembly and the `urljoin`
reference-resolution algorithm including its dot-segment handling. -/

/-- The six components returned by CPython `urlparse`:
`scheme://netloc/path;params?query#fragment`. -/
structure UrlParts where
  scheme : String
  netloc : String
  path : String
  params : String
  query : String
  fragment : String
  deriving DecidableEq, Repr

/-- CPython scheme characters: letters, digits, `+`, `-`, `.`. -/
def isSchemeChar (c : Char) : Bool :=
  c.isAlpha || c.isDigit || c = '+' || c = '-' || c = '.'

/-- CPython scheme splitting inside `urlsplit`: when the text before the
first `:` is a non-empty run of scheme characters starting with a letter,
return the lowercased scheme and the remainder after the colon. -/
def splitScheme (s : String) : Option (String × String) :=
  let pre := s.data.takeWhile (fun c => c ≠ ':')
  if pre.length = s.data.length then none
  else
    match pre with
    | [] => none
    | c :: cs =>
      if c.isAlpha && (c :: cs).all isSchemeChar then
        some (⟨(c :: cs).map Char.toLower⟩, ⟨s.data.drop (pre.length + 1)⟩)
      else none

/-- CPython `uses_relative` scheme list. -/
def usesRelative : List String :=
  ["", "ftp", "http", "gopher", "nntp", "imap", "wais", "file", "https",
   "shttp", "mms", "prospero", "rtsp", "rtspu", "sftp", "svn", "svn+ssh",
   "ws", "wss"]

/-- CPython `uses_netloc` scheme list. -/
def usesNetloc : List String :=
  ["", "ftp", "http", "gopher", "nntp", "telnet", "imap", "wais", "file",
   "mms", "https", "shttp", "snews", "prospero", "rtsp", "rtspu", "rsync",
   "svn", "svn+ssh", "sftp", "nfs", "git", "git+ssh", "ws", "wss",
   "itms-services"]

/-- CPython `uses_params` scheme list. -/
def usesParams : List String :=
  ["", "ftp", "hdl", "prospero", "http", "imap", "https", "shttp", "rtsp",
   "rtspu", "sip", "sips", "mms", "sftp", "tel"]

/-- Split the netloc (after a leading `//`) from the rest: the netloc runs
to the next `/`, `?` or `#`.  Returns `(netloc, rest)`. -/
def splitNetloc (l : List Char) : List Char × List Char :=
  if l.take 2 = ['/', '/'] then
    let body := l.drop 2
    let nl := body.takeWhile (fun c => c ≠ '/' && c ≠ '?' && c ≠ '#')
    (nl, body.drop nl.length)
  else ([], l)

/-- Split the part of the last path segment after the first `;` into the
`params` component, as CPython `_splitparams` does.  Only called when a
`;` occurs in the path. -/
def splitParamsL (l : List Char) : List Char × List Char :=
  if containsIn ['/'] l then
    let rseg := l.reverse.takeWhile (fun c => c ≠ '/')
    let lastSeg := rseg.reverse
    let front := l.take (l.length - rseg.length)
    if containsIn [';'] lastSeg then
      let p := lastSeg.takeWhile (fun c => c ≠ ';')
      (front ++ p, lastSeg.drop (p.length + 1))
    else (l, [])
  else
    let p := l.takeWhile (fun c => c ≠ ';')
    (p, l.drop (p.length + 1))

/-- CPython `urlparse(url, scheme=default, allow_fragments=True)`:
`urlsplit` (scheme, netloc, fragment, query splitting) followed by the
params split on the path. -/
def urlparseWith (default : String) (url : String) : UrlParts :=
  let (scheme, rest) :=
    match splitScheme url with
    | some p => p
    | none => (default, url)
  let (netloc, r1) := splitNetloc rest.data
  let beforeFrag := r1.takeWhile (fun c => c ≠ '#')
  let fragment := r1.drop (beforeFrag.length + 1)
  let beforeQuery := beforeFrag.takeWhile (fun c => c ≠ '?')
  let query := beforeFrag.drop (beforeQuery.length + 1)
  let (path, params) :=
    if scheme ∈ usesParams && containsIn [';'] beforeQuery then
      splitParamsL beforeQuery
    else (beforeQuery, [])
  ⟨scheme, ⟨netloc⟩, ⟨path⟩, ⟨params⟩, ⟨query⟩, ⟨fragment⟩⟩

/-- CPython `urlunparse` / `urlunsplit`: re-assemble the six components. -/
def urlunparse (u : UrlParts) : String :=
  let url0 := if u.params ≠ "" then u.path ++ ";" ++ u.params else u.path
  let url1 :=
    if u.netloc ≠ "" ∨ (url0 ≠ "" ∧ url0.data.take 2 = ['/', '/']) then
      let url' :=
        if url0 ≠ "" ∧ url0.data.take 1 ≠ ['/'] then "/" ++ url0 else url0
      "//" ++ u.netloc ++ url'
    else url0
  let url2 := if u.scheme ≠ "" then u.scheme ++ ":" ++ url1 else url1
  let url3 := if u.query ≠ "" then url2 ++ "?" ++ u.query else url2
  if u.fragment ≠ "" then url3 ++ "#" ++ u.fragment else url3

/-- Python `s.split("/")` on character lists; the result is non-empty. -/
def splitOnSlash : List Char → List (List Char)
  | [] => [[]]
  | a :: as =>
    match splitOnSlash as with
    | [] => [[a]]
    | h :: t => if a = '/' then [] :: h :: t else (a :: h) :: t

/-- `segments[1:-1] = filter(None, segments[1:-1])` from CPython `urljoin`:
drop empty segments strictly between the first and the last. -/
def filterMiddle : List (List Char) → List (List Char)
  | [] => []
  | [a] => [a]
  | a :: rest => a :: (rest.dropLast.filter (fun s => s ≠ []) ++ [rest.getLastD []])

/-- The dot-segment resolution loop of CPython `urljoin`. -/
def resolveSegments (segments : List (List Char)) : List (List Char) :=
  segments.foldl
    (fun acc seg =>
      if seg = ['.', '.'] then acc.dropLast
      else if seg = ['.'] then acc
      else acc ++ [seg])
    []

/-- CPython `urljoin(base, url)` with `allow_fragments=True`. -/
def urljoin (base url : String) : String :=
  if base = "" then url
  else if url = "" then base
  else
    let b := urlparseWith "" base
    let u := urlparseWith b.scheme url
    if u.scheme ≠ b.scheme ∨ u.scheme ∉ usesRelative then url
    else
      let inNetloc := u.scheme ∈ usesNetloc
      if inNetloc ∧ u.netloc ≠ "" then urlunparse u
      else
        let netloc := if inNetloc then b.netloc else u.netloc
        if u.path = "" ∧ u.params = "" then
          let query := if u.query = "" then b.query else u.query
          urlunparse ⟨u.scheme, netloc, b.path, b.params, query, u.fragment⟩
        else
          let baseParts0 := splitOnSlash b.path.data
          let baseParts :=
            if baseParts0.getLastD [] ≠ [] then baseParts0.dropLast
            else baseParts0
          let segments :=
            if u.path.data.take 1 = ['/'] then splitOnSlash u.path.data
            else filterMiddle (baseParts ++ splitOnSlash u.path.data)
          let resolved0 := resolveSegments segments
          let resolved :=
            if segments.getLastD [] = ['.'] ∨ segments.getLastD [] = ['.', '.'] then
              resolved0 ++ [[]]
            else resolved0
          let joined := String.intercalate "/" (resolved.map (fun l => (⟨l⟩ : String)))
          let path := if joined = "" then "/" else joined
          urlunparse ⟨u.scheme, netloc, path, u.params, u.query, u.fragment⟩

/-! ## `scraper_crawl.py`: URL helpers -/

/-- `normalize_url(href, base)` from `scraper_crawl.py`: `None` for a falsy
href, otherwise `urljoin(base, href.split("#")[0]).rstrip("/")`. -/
def normalize_url (href base : String) : Option String :=
  if href = "" then none
  else some (rstripSlashes (urljoin base (splitFragment href)))

/-- `is_internal(url, base_netloc)` from `scraper_crawl.py`. -/
def is_internal (url baseNetloc : String) : Bool :=
  (urlparseWith "" url).netloc = "" || (urlparseWith "" url).netloc = baseNetloc

/-- The canonical form of a URL in the sense of the specification:
fragment removed, trailing slashes stripped. -/
def canonicalUrl (u : String) : String :=
  rstripSlashes (splitFragment u)

/-! ## `scraper_crawl.py`: extraction and the BFS crawl

A fetched page is abstracted by `Html`: the `href` attributes of its
anchors plus the selector results `parse_article` inspects.  `none`
models a selector with no match (`select_one` returning `None`);
`titleTag = some none` models a present `<title>` tag whose `.string` is
`None` (BeautifulSoup returns `None` for e.g. an empty tag), on which the
Python code raises `AttributeError` from `None.strip()`. -/

structure Html where
  hrefs : List String
  h1 : Option String
  titleTag : Option (Option String)
  metaDesc : Option String
  authorSel : Option String
  timeSel : Option String
  tagSel : List String
  textLen : Nat
  deriving Repr

/-- The row dictionary produced by `parse_article`. -/
structure ContentRecord where
  title : String
  url : String
  date : String
  author : String
  category : String
  excerpt : String
  content_length : Nat
  tags : String
  notes : String
  deriving DecidableEq, Repr

/-- `parse_article(html, url)` from `scraper_crawl.py`.  Returns `none`
when the Python code would raise (no `h1`, and a `<title>` tag whose
`.string` is `None`). -/
def parse_article (page : Html) (url : String) : Option ContentRecord :=
  let titleRes : Option String :=
    match page.h1, page.titleTag with
    | some t, _ => some t
    | none, some (some s) => some (strTrim s)
    | none, some none => none
    | none, none => some ""
  match titleRes with
  | none => none
  | some title =>
    some
      { title := title
        url := url
        date := match page.timeSel with | some t => t | none => ""
        author := match page.authorSel with | some a => a | none => ""
        category := "History"
        excerpt := match page.metaDesc with
          | some c => if c = "" then "" else strTrim c
          | none => ""
        content_length := page.textLen
        tags := if page.tagSel = [] then ""
          else String.intercalate ", " page.tagSel
        notes := "" }

/-- `extract_links(html, base)` from `scraper_crawl.py`: strip each href,
normalize it against the page URL, keep the truthy results. -/
def extract_links (page : Html) (base : String) : List String :=
  page.hrefs.filterMap (fun href =>
    match normalize_url (strTrim href) base with
    | some s => if s = "" then none else some s
    | none => none)

/-- The article-path heuristic of `main`:
`"/article" in lower or "/articles" in lower or "/article-" in lower`. -/
def articleLike (url : String) : Bool :=
  let lower := strLower url
  containsSub lower "/article" || containsSub lower "/articles" ||
    containsSub lower "/article-"

/-- Crawl configuration drawn from the environment in `scraper_crawl.py`. -/
structure CrawlConfig where
  maxRecords : Nat
  maxPages : Nat
  baseNetloc : String

/-- The fetch tier: `none` models both `requests_get` and the Selenium
fallback failing (or returning falsy content), in which case the loop
`continue`s. -/
def FetchWorld : Type := String → Option Html

/-- The mutable state of `main`'s crawl loop.  `fetched` and `collected`
are ghost logs: `fetched` records every URL passed to the fetch tier,
`collected` every normalized URL newly added to the article set. -/
structure CrawlState where
  q : List String
  visited : List String
  articles : List String
  pagesVisited : Nat
  rows : List ContentRecord
  csv : List ContentRecord
  fetched : List String
  collected : List String
  deriving Repr

/-- Enqueueing of one extracted link inside `main`'s loop. -/
def linkStep (cfg : CrawlConfig) (t : CrawlState) (link : String) : CrawlState :=
  if is_internal link cfg.baseNetloc then
    let normalized := rstripSlashes link
    if normalized ∈ t.visited then t
    else { t with q := t.q ++ [normalized] }
  else t

/-- The article-collection branch of `main`'s loop.  A `parse_article`
exception (`none`) is caught and logged: the record is dropped but the
crawl continues. -/
def collectArticle (page : Html) (url : String) (s : CrawlState) : CrawlState :=
  if articleLike url then
    let norm := rstripSlashes url
    if norm ∈ s.articles then s
    else
      match parse_article page url with
      | some row =>
        { s with
            rows := s.rows ++ [row]
            articles := norm :: s.articles
            collected := s.collected ++ [norm] }
      | none => s
  else s

/-- The periodic flush of `main`: once ten rows have accumulated they are
appended to the CSV and the buffer is cleared. -/
def flushStep (s : CrawlState) : CrawlState :=
  if 10 ≤ s.rows.length then { s with csv := s.csv ++ s.rows, rows := [] }
  else s

/-- The body of one non-skipped iteration of `main`'s loop: mark the URL
visited (before fetching), record the fetch, and on a successful fetch
enqueue internal links, collect an article record, and maybe flush. -/
def visitUrl (w : FetchWorld) (cfg : CrawlConfig) (url : String)
    (s : CrawlState) : CrawlState :=
  let s1 :=
    { s with
        visited := url :: s.visited
        pagesVisited := s.pagesVisited + 1
        fetched := s.fetched ++ [url] }
  match w url with
  | none => s1
  | some page =>
    flushStep (collectArticle page url ((extract_links page url).foldl (linkStep cfg) s1))

/-- The crawl loop of `main`, fuelled.  The loop guard is
`while q and len(articles) < MAX_RECORDS and pages_visited < MAX_PAGES_TO_VISIT`;
an already-visited URL is popped and skipped. -/
def crawl (w : FetchWorld) (cfg : CrawlConfig) : Nat → CrawlState → CrawlState
  | 0, s => s
  | Nat.succ fuel, s =>
    match s.q with
    | [] => s
    | url :: rest =>
      if s.articles.length < cfg.maxRecords ∧ s.pagesVisited < cfg.maxPages then
        if url ∈ s.visited then crawl w cfg fuel { s with q := rest }
        else crawl w cfg fuel (visitUrl w cfg url { s with q := rest })
      else s

/-- The startup state of `main`: the queue holds the raw start URL, the
visited set is empty, and the article set is seeded from the URLs of the
prior run's CSV, with trailing slashes stripped (a Python `set`, hence
deduplicated). -/
def mkInitState (start : String) (csvUrls : List String) : CrawlState :=
  { q := [start]
    visited := []
    articles := (csvUrls.map rstripSlashes).dedup
    pagesVisited := 0
    rows := []
    csv := []
    fetched := []
    collected := [] }

/-- `main` of `scraper_crawl.py`: configuration, startup seeding, crawl
loop, final flush of any buffered rows. -/
def runCrawlMain (start : String) (csvUrls : List String) (w : FetchWorld)
    (maxRecords maxPages fuel : Nat) : CrawlState :=
  let cfg : CrawlConfig :=
    ⟨maxRecords, maxPages, (urlparseWith "" start).netloc⟩
  let s := crawl w cfg fuel (mkInitState start csvUrls)
  if s.rows = [] then s else { s with csv := s.csv ++ s.rows, rows := [] }

/-! ## The durability layer: `store_to_db.py` and `import_fallback.py`

A store document carries the two fields the upsert filters inspect plus an
opaque payload standing for the remaining fields.  A line of the durable
JSONL log (`db_fallback.jsonl`) is either a serialized document, a
malformed line (on which `json.loads` raises), or a blank line (filtered
out before parsing).  The filesystem is reduced to the two paths the code
touches: the fallback log and its `Imported` rename target. -/

structure Doc where
  url : String
  title : String
  payload : String
  deriving DecidableEq, Repr

inductive Line where
  | good (d : Doc)
  | bad
  | blank
  deriving DecidableEq, Repr

/-- The two files of the durability layer: `db_fallback.jsonl` and
`db_fallback.imported.jsonl` (`with_suffix(".imported.jsonl")`).
`none` means the file does not exist. -/
structure FS where
  fallback : Option (List Line)
  imported : Option (List Line)
  deriving DecidableEq, Repr

/-- A Mongo upsert filter: `{"url": k}` or `{"title": k}`. -/
inductive MongoKey where
  | byUrl (k : String)
  | byTitle (k : String)
  deriving DecidableEq, Repr

/-- Whether a stored document matches an upsert filter. -/
def matchesKey (k : MongoKey) (d : Doc) : Bool :=
  match k with
  | .byUrl u => d.url = u
  | .byTitle t => d.title = t

/-- A Mongo collection. -/
abbrev MongoStore : Type := List Doc

/-- `UpdateOne(key, {"$set": rec}, upsert=True)` / `update_one(..., upsert=True)`:
replace the first document matching the filter, or insert the record when
none matches.  `$set rec` with `rec` carrying every field replaces the
whole document. -/
def upsertOne : MongoStore → MongoKey → Doc → MongoStore
  | [], _, d => [d]
  | x :: xs, k, d => if matchesKey k x then d :: xs else x :: upsertOne xs k d

/-- Apply a sequence of upserts in order, each keyed by `key`. -/
def applyUpserts (key : Doc → MongoKey) (st : MongoStore) (records : List Doc) :
    MongoStore :=
  records.foldl (fun acc r => upsertOne acc (key r) r) st

/-! ### `store_to_db.py` -/

/-- The upsert filter built by `upsert_to_mongo`:
`filter_doc = {"url": r.get("url")}`, unconditionally. -/
def storeToDbKey (r : Doc) : MongoKey :=
  MongoKey.byUrl r.url

/-- `upsert_to_mongo(rows, client)` from `store_to_db.py`: one
`update_one(filter, {"$set": r}, upsert=True)` per row, in order. -/
def upsert_to_mongo (rows : List Doc) (st : MongoStore) : MongoStore :=
  applyUpserts storeToDbKey st rows

/-- `save_fallback(rows)` from `store_to_db.py`: the fallback file is
opened with mode `"w"` and receives one JSON object per line. -/
def save_fallback (rows : List Doc) (fs : FS) : FS :=
  { fs with fallback := some (rows.map Line.good) }

/-- The outcome of one `store_to_db.py` run. -/
structure StoreRunResult where
  fs : FS
  store : MongoStore
  connectAttempts : Nat
  deriving DecidableEq, Repr

/-- `main` of `store_to_db.py`: abort when `MONGO_URI` is unset; return
when the CSV yields no rows; otherwise attempt a single connection (ping)
and either upsert every row or save all rows to the fallback file.
`connectAttempts` counts connection attempts against the store. -/
def storeMain (mongoSet : Bool) (storeUp : Bool) (rows : List Doc)
    (fs : FS) (st : MongoStore) : StoreRunResult :=
  if ¬mongoSet then ⟨fs, st, 0⟩
  else if rows = [] then ⟨fs, st, 0⟩
  else if storeUp then ⟨fs, upsert_to_mongo rows st, 1⟩
  else ⟨save_fallback rows fs, st, 1⟩

/-! ### `import_fallback.py` -/

/-- `json.loads` on one retained line: a malformed line raises.  A blank
line would also raise, but blank lines are filtered out before parsing. -/
def parseLine : Line → Except Unit Doc
  | .good d => Except.ok d
  | .bad => Except.error ()
  | .blank => Except.error ()

/-- Whether a line is blank (`not line.strip()`). -/
def lineIsBlank : Line → Bool
  | .blank => true
  | _ => false

/-- The comprehension filter `[line for line in ... if line.strip()]`:
drop blank lines, keep everything else in order. -/
def dropBlanks : List Line → List Line
  | [] => []
  | Line.blank :: ls => dropBlanks ls
  | l :: ls => l :: dropBlanks ls

/-- The list comprehension `[json.loads(line) for line in lines]`: parse
every line in order, raising out of the whole comprehension at the first
malformed line. -/
def parseLines : List Line → Except Unit (List Doc)
  | [] => Except.ok []
  | l :: ls =>
    match parseLine l with
    | Except.error e => Except.error e
    | Except.ok d =>
      match parseLines ls with
      | Except.error e => Except.error e
      | Except.ok ds => Except.ok (d :: ds)

/-- `load_fallback()` from `import_fallback.py`: an absent file yields no
records; otherwise blank lines are dropped and every retained line is
passed to `json.loads` — the first malformed line raises out of the
function. -/
def load_fallback (fs : FS) : Except Unit (List Doc) :=
  match fs.fallback with
  | none => Except.ok []
  | some lines => parseLines (dropBlanks lines)

/-- The upsert filter built by `try_import`:
`{"url": rec.get("url")} if rec.get("url") else {"title": rec.get("title")}`. -/
def tryImportKey (r : Doc) : MongoKey :=
  if r.url ≠ "" then MongoKey.byUrl r.url else MongoKey.byTitle r.title

/-- `records[i:i+BATCH_SIZE]` slicing, fuelled by the list length so the
definition reduces in the kernel.  Requires `0 < b` to mirror Python
`range(0, len(records), BATCH_SIZE)`. -/
def chunksFuel (b : Nat) : Nat → List Doc → List (List Doc)
  | 0, _ => []
  | _, [] => []
  | Nat.succ fuel, a :: l => (a :: l.take (b - 1)) :: chunksFuel b fuel (l.drop (b - 1))

/-- The batches `try_import` iterates over. -/
def chunks (b : Nat) (records : List Doc) : List (List Doc) :=
  chunksFuel b records.length records

/-- `try_import(client, records)` from `import_fallback.py`: bounded-size
batches, each applied with `bulk_write` as a list of keyed
`UpdateOne(..., upsert=True)` operations. -/
def try_import (st : MongoStore) (records : List Doc) (b : Nat) : MongoStore :=
  (chunks b records).foldl (fun acc batch => applyUpserts tryImportKey acc batch) st

/-- `FALLBACK_PATH.rename(FALLBACK_PATH.with_suffix(".imported.jsonl"))`. -/
def renameImported (fs : FS) : FS :=
  { fallback := none, imported := fs.fallback }

/-- The tiers attempted by `import_fallback.main`. -/
inductive Tier where
  | primaryT
  | localT
  deriving DecidableEq, Repr

/-- How one `import_fallback.py` run ended. -/
inductive ImportOutcome where
  | noRecords
  | primaryOk
  | localOk
  | degraded
  deriving DecidableEq, Repr

/-- The observable result of one `import_fallback.py` run.  `attempts` is
a ghost log of the connection attempts, in order. -/
structure ImportResult where
  fs : FS
  primary : MongoStore
  localSt : MongoStore
  attempts : List Tier
  outcome : ImportOutcome
  deriving DecidableEq, Repr

/-- `main` of `import_fallback.py`: load the log (a malformed line raises
out of `main`), return when it yields no records, else attempt the
configured URI (when set), then local Mongo; a successful import renames
the log to its `Imported` form.  `pUp` / `lUp` model whether the ping of
the respective tier succeeds. -/
def importMain (mongoUri : String) (b : Nat) (pUp lUp : Bool) (fs : FS)
    (pSt lSt : MongoStore) : Except Unit ImportResult :=
  match load_fallback fs with
  | Except.error e => Except.error e
  | Except.ok records =>
    if records = [] then Except.ok ⟨fs, pSt, lSt, [], ImportOutcome.noRecords⟩
    else if mongoUri ≠ "" ∧ pUp then
      Except.ok ⟨renameImported fs, try_import pSt records b, lSt,
        [Tier.primaryT], ImportOutcome.primaryOk⟩
    else if lUp then
      Except.ok ⟨renameImported fs, pSt, try_import lSt records b,
        (if mongoUri ≠ "" then [Tier.primaryT] else []) ++ [Tier.localT],
        ImportOutcome.localOk⟩
    else
      Except.ok ⟨fs, pSt, lSt,
        (if mongoUri ≠ "" then [Tier.primaryT] else []) ++ [Tier.localT],
        ImportOutcome.degraded⟩

/-- The well-formed documents of a log, in order: what a successful
`load_fallback` returns. -/
def goodsOf (lines : List Line) : List Doc :=
  lines.filterMap (fun l =>
    match l with
    | Line.good d => some d
    | _ => none)

/-! ## Concrete worlds and documents used in counterexamples and witnesses -/

/-- A page with links only: every selector of `parse_article` unmatched. -/
def htmlLinksOnly (ls : List String) : Html :=
  ⟨ls, none, none, none, none, none, [], 0⟩

/-- Two-page site: the page at `http://a/` links to `/`, whose normalized
form `http://a` is a different string and so is enqueued and fetched again. -/
def crawlWorldDup : FetchWorld := fun u =>
  if u = "http://a/" then some (htmlLinksOnly ["/"])
  else if u = "http://a" then some (htmlLinksOnly [])
  else none

/-- A world in which every fetch fails. -/
def crawlWorldNone : FetchWorld := fun _ => none

/-- A one-page site whose sole page was already collected by a prior run. -/
def crawlWorldResume : FetchWorld := fun u =>
  if u = "http://s/articles/p" then some (htmlLinksOnly []) else none

/-- An article page with a heading but no optional selector matches. -/
def pageBare : Html :=
  ⟨[], some "Rome", none, none, none, none, [], 1234⟩

/-- A sample well-formed store document. -/
def dEx : Doc := ⟨"u", "t", "x"⟩

/-- A document from an earlier Degraded run, present in the log. -/
def dOld : Doc := ⟨"o", "old", "1"⟩

/-- A pending document of the current run. -/
def dNew : Doc := ⟨"n", "new", "2"⟩

/-- A document with an empty `url` field and title `A`. -/
def dNoUrlA : Doc := ⟨"", "A", "1"⟩

/-- A second document with an empty `url` field and title `B`. -/
def dNoUrlB : Doc := ⟨"", "B", "2"⟩

/-- A log holding one well-formed record. -/
def fsEx : FS := ⟨some [Line.good dEx], none⟩

/-- A log holding a malformed line followed by a well-formed record. -/
def fsBad : FS := ⟨some [Line.bad, Line.good dEx], none⟩

/-- A log already holding a line from an earlier Degraded run. -/
def fsPrior : FS := ⟨some [Line.good dOld], none⟩

/-! ## Crawl loop lemmas -/

lemma crawl_zero (w : FetchWorld) (cfg : CrawlConfig) (s : CrawlState) :
    crawl w cfg 0 s = s := rfl

lemma crawl_succ_nil (w : FetchWorld) (cfg : CrawlConfig) (fuel : Nat)
    (s : CrawlState) (hq : s.q = []) : crawl w cfg (fuel + 1) s = s := by
  simp [crawl, hq]

lemma crawl_succ_stop (w : FetchWorld) (cfg : CrawlConfig) (fuel : Nat)
    (s : CrawlState) (url : String) (rest : List String)
    (hq : s.q = url :: rest)
    (hg : ¬(s.articles.length < cfg.maxRecords ∧ s.pagesVisited < cfg.maxPages)) :
    crawl w cfg (fuel + 1) s = s := by
  simp [crawl, hq, hg]

lemma crawl_succ_skip (w : FetchWorld) (cfg : CrawlConfig) (fuel : Nat)
    (s : CrawlState) (url : String) (rest : List String)
    (hq : s.q = url :: rest)
    (hg : s.articles.length < cfg.maxRecords ∧ s.pagesVisited < cfg.maxPages)
    (hv : url ∈ s.visited) :
    crawl w cfg (fuel + 1) s = crawl w cfg fuel { s with q := rest } := by
  simp [crawl, hq, hg, hv]

lemma crawl_succ_visit (w : FetchWorld) (cfg : CrawlConfig) (fuel : Nat)
    (s : CrawlState) (url : String) (rest : List String)
    (hq : s.q = url :: rest)
    (hg : s.articles.length < cfg.maxRecords ∧ s.pagesVisited < cfg.maxPages)
    (hv : url ∉ s.visited) :
    crawl w cfg (fuel + 1) s =
      crawl w cfg fuel (visitUrl w cfg url { s with q := rest }) := by
  simp [crawl, hq, hg, hv]


lemma linkStep_pres (cfg : CrawlConfig) (t : CrawlState) (link : String) :
    (linkStep cfg t link).visited = t.visited ∧
    (linkStep cfg t link).articles = t.articles ∧
    (linkStep cfg t link).fetched = t.fetched ∧
    (linkStep cfg t link).collected = t.collected := by
  by_cases h1 : is_internal link cfg.baseNetloc = true
  · by_cases h2 : rstripSlashes link ∈ t.visited <;> simp [linkStep, h1, h2]
  · simp [linkStep, h1]

lemma foldlLink_pres (cfg : CrawlConfig) :
    ∀ (links : List String) (t : CrawlState),
    ((links.foldl (linkStep cfg) t).visited = t.visited ∧
     (links.foldl (linkStep cfg) t).articles = t.articles ∧
     (links.foldl (linkStep cfg) t).fetched = t.fetched ∧
     (links.foldl (linkStep cfg) t).collected = t.collected)
  | [], t => by simp
  | a :: as, t => by
    have h1 := linkStep_pres cfg t a
    have h2 := foldlLink_pres cfg as (linkStep cfg t a)
    simp only [List.foldl_cons]
    exact ⟨h2.1.trans h1.1, h2.2.1.trans h1.2.1, h2.2.2.1.trans h1.2.2.1,
      h2.2.2.2.trans h1.2.2.2⟩

lemma collectArticle_visited_fetched (page : Html) (url : String) (s : CrawlState) :
    (collectArticle page url s).visited = s.visited ∧
    (collectArticle page url s).fetched = s.fetched := by
  by_cases h1 : articleLike url = true
  · by_cases h2 : rstripSlashes url ∈ s.articles
    · simp [collectArticle, h1, h2]
    · cases hp : parse_article page url <;> simp [collectArticle, h1, h2, hp]
  · simp [collectArticle, h1]

lemma collectArticle_articles_sub (page : Html) (url : String) (s : CrawlState) :
    s.articles ⊆ (collectArticle page url s).articles := by
  by_cases h1 : articleLike url = true
  · by_cases h2 : rstripSlashes url ∈ s.articles
    · simp [collectArticle, h1, h2]
    · cases hp : parse_article page url <;> simp [collectArticle, h1, h2, hp]
  · simp [collectArticle, h1]

lemma collectArticle_articles_len (page : Html) (url : String) (s : CrawlState) :
    (collectArticle page url s).articles.length ≤ s.articles.length + 1 := by
  by_cases h1 : articleLike url = true
  · by_cases h2 : rstripSlashes url ∈ s.articles
    · simp [collectArticle, h1, h2]
    · cases hp : parse_article page url <;> simp [collectArticle, h1, h2, hp]
  · simp [collectArticle, h1]

lemma collectArticle_collected (page : Html) (url : String) (s : CrawlState) :
    ∀ v ∈ (collectArticle page url s).collected,
      v ∈ s.collected ∨ v ∉ s.articles := by
  by_cases h1 : articleLike url = true
  · by_cases h2 : rstripSlashes url ∈ s.articles
    · simp only [collectArticle, h1, if_true, h2]
      exact fun v hv => Or.inl hv
    · cases hp : parse_article page url with
      | none =>
        simp only [collectArticle, h1, if_true, hp]
        simp only [h2, if_false]
        exact fun v hv => Or.inl hv
      | some row =>
        simp only [collectArticle, h1, if_true, hp]
        simp only [h2, if_false]
        intro v hv
        simp only [List.mem_append, List.mem_singleton] at hv
        rcases hv with hv | hv
        · exact Or.inl hv
        · subst hv
          exact Or.inr h2
  · simp only [collectArticle, h1]
    exact fun v hv => Or.inl hv

lemma flushStep_pres (s : CrawlState) :
    (flushStep s).visited = s.visited ∧ (flushStep s).articles = s.articles ∧
    (flushStep s).fetched = s.fetched ∧ (flushStep s).collected = s.collected := by
  by_cases h : 10 ≤ s.rows.length <;> simp [flushStep, h]

lemma visitUrl_visited (w : FetchWorld) (cfg : CrawlConfig) (url : String)
    (s : CrawlState) : (visitUrl w cfg url s).visited = url :: s.visited := by
  unfold visitUrl
  cases w url with
  | none => rfl
  | some page =>
    simp only
    rw [(flushStep_pres _).1, (collectArticle_visited_fetched _ _ _).1,
      (foldlLink_pres cfg _ _).1]

lemma visitUrl_fetched (w : FetchWorld) (cfg : CrawlConfig) (url : String)
    (s : CrawlState) : (visitUrl w cfg url s).fetched = s.fetched ++ [url] := by
  unfold visitUrl
  cases w url with
  | none => rfl
  | some page =>
    simp only
    rw [(flushStep_pres _).2.2.1, (collectArticle_visited_fetched _ _ _).2,
      (foldlLink_pres cfg _ _).2.2.1]

lemma visitUrl_articles_sub (w : FetchWorld) (cfg : CrawlConfig) (url : String)
    (s : CrawlState) : s.articles ⊆ (visitUrl w cfg url s).articles := by
  unfold visitUrl
  cases w url with
  | none => simp
  | some page =>
    simp only
    rw [(flushStep_pres _).2.1]
    intro a ha
    exact collectArticle_articles_sub page url _
      (by rw [(foldlLink_pres cfg _ _).2.1]; exact ha)

lemma visitUrl_articles_len (w : FetchWorld) (cfg : CrawlConfig) (url : String)
    (s : CrawlState) :
    (visitUrl w cfg url s).articles.length ≤ s.articles.length + 1 := by
  unfold visitUrl
  cases w url with
  | none => simp
  | some page =>
    simp only
    rw [(flushStep_pres _).2.1]
    calc (collectArticle page url _).articles.length
        ≤ ((extract_links page url).foldl (linkStep cfg) _).articles.length + 1 :=
          collectArticle_articles_len _ _ _
      _ = s.articles.length + 1 := by rw [(foldlLink_pres cfg _ _).2.1]

lemma visitUrl_collected (w : FetchWorld) (cfg : CrawlConfig) (url : String)
    (s : CrawlState) :
    ∀ v ∈ (visitUrl w cfg url s).collected, v ∈ s.collected ∨ v ∉ s.articles := by
  unfold visitUrl
  cases w url with
  | none => exact fun v hv => Or.inl hv
  | some page =>
    simp only
    intro v hv
    rw [(flushStep_pres _).2.2.2] at hv
    rcases collectArticle_collected page url _ v hv with h | h
    · rw [(foldlLink_pres cfg _ _).2.2.2] at h
      exact Or.inl h
    · rw [(foldlLink_pres cfg _ _).2.1] at h
      exact Or.inr h

lemma crawl_fetched_inv (w : FetchWorld) (cfg : CrawlConfig) :
    ∀ (fuel : Nat) (s : CrawlState), s.fetched.Nodup →
      (∀ u ∈ s.fetched, u ∈ s.visited) →
      ((crawl w cfg fuel s).fetched.Nodup ∧
       ∀ u ∈ (crawl w cfg fuel s).fetched, u ∈ (crawl w cfg fuel s).visited)
  | 0, s => fun hnd hsub => ⟨hnd, hsub⟩
  | fuel + 1, s => fun hnd hsub => by
    rcases hq : s.q with _ | ⟨url, rest⟩
    · rw [crawl_succ_nil w cfg fuel s hq]
      exact ⟨hnd, hsub⟩
    · by_cases hg : s.articles.length < cfg.maxRecords ∧ s.pagesVisited < cfg.maxPages
      · by_cases hv : url ∈ s.visited
        · rw [crawl_succ_skip w cfg fuel s url rest hq hg hv]
          exact crawl_fetched_inv w cfg fuel _ hnd hsub
        · rw [crawl_succ_visit w cfg fuel s url rest hq hg hv]
          apply crawl_fetched_inv w cfg fuel
          · rw [visitUrl_fetched]
            simp only [List.nodup_append, List.nodup_cons, List.nodup_nil]
            refine ⟨hnd, by simp, ?_⟩
            intro u hu hu'
            simp only [List.mem_singleton] at hu'
            subst hu'
            exact hv (hsub u hu)
          · rw [visitUrl_fetched, visitUrl_visited]
            intro u hu
            simp only [List.mem_append, List.mem_singleton] at hu
            rcases hu with hu | hu
            · exact List.mem_cons_of_mem _ (hsub u hu)
            · subst hu
              exact List.mem_cons_self _ _
      · rw [crawl_succ_stop w cfg fuel s url rest hq hg]
        exact ⟨hnd, hsub⟩

lemma crawl_articles_bound (w : FetchWorld) (cfg : CrawlConfig) :
    ∀ (fuel : Nat) (s : CrawlState),
      s.articles.length ≤ cfg.maxRecords →
      (crawl w cfg fuel s).articles.length ≤ cfg.maxRecords
  | 0, _ => fun h => h
  | fuel + 1, s => fun h => by
    rcases hq : s.q with _ | ⟨url, rest⟩
    · rw [crawl_succ_nil w cfg fuel s hq]; exact h
    · by_cases hg : s.articles.length < cfg.maxRecords ∧ s.pagesVisited < cfg.maxPages
      · by_cases hv : url ∈ s.visited
        · rw [crawl_succ_skip w cfg fuel s url rest hq hg hv]
          exact crawl_articles_bound w cfg fuel _ h
        · rw [crawl_succ_visit w cfg fuel s url rest hq hg hv]
          apply crawl_articles_bound w cfg fuel
          calc (visitUrl w cfg url { s with q := rest }).articles.length
              ≤ s.articles.length + 1 := visitUrl_articles_len w cfg url _
            _ ≤ cfg.maxRecords := hg.1
      · rw [crawl_succ_stop w cfg fuel s url rest hq hg]; exact h

lemma crawl_collected_inv (w : FetchWorld) (cfg : CrawlConfig) (A : List String) :
    ∀ (fuel : Nat) (s : CrawlState), A ⊆ s.articles →
      (∀ v ∈ s.collected, v ∉ A) →
      ∀ v ∈ (crawl w cfg fuel s).collected, v ∉ A
  | 0, _ => fun _ hc => hc
  | fuel + 1, s => fun hA hc => by
    rcases hq : s.q with _ | ⟨url, rest⟩
    · rw [crawl_succ_nil w cfg fuel s hq]; exact hc
    · by_cases hg : s.articles.length < cfg.maxRecords ∧ s.pagesVisited < cfg.maxPages
      · by_cases hv : url ∈ s.visited
        · rw [crawl_succ_skip w cfg fuel s url rest hq hg hv]
          exact crawl_collected_inv w cfg A fuel _ hA hc
        · rw [crawl_succ_visit w cfg fuel s url rest hq hg hv]
          apply crawl_collected_inv w cfg A fuel
          · exact fun a ha => visitUrl_articles_sub w cfg url _ (hA ha)
          · intro v hvc
            rcases visitUrl_collected w cfg url _ v hvc with h | h
            · exact hc v h
            · exact fun hvA => h (hA hvA)
      · rw [crawl_succ_stop w cfg fuel s url rest hq hg]; exact hc

lemma runCrawlMain_fetched (start : String) (csvUrls : List String)
    (w : FetchWorld) (maxRecords maxPages fuel : Nat) :
    (runCrawlMain start csvUrls w maxRecords maxPages fuel).fetched =
      (crawl w ⟨maxRecords, maxPages, (urlparseWith "" start).netloc⟩ fuel
        (mkInitState start csvUrls)).fetched := by
  by_cases h : (crawl w ⟨maxRecords, maxPages, (urlparseWith "" start).netloc⟩
      fuel (mkInitState start csvUrls)).rows = [] <;>
    simp [runCrawlMain, h]

lemma runCrawlMain_articles (start : String) (csvUrls : List String)
    (w : FetchWorld) (maxRecords maxPages fuel : Nat) :
    (runCrawlMain start csvUrls w maxRecords maxPages fuel).articles =
      (crawl w ⟨maxRecords, maxPages, (urlparseWith "" start).netloc⟩ fuel
        (mkInitState start csvUrls)).articles := by
  by_cases h : (crawl w ⟨maxRecords, maxPages, (urlparseWith "" start).netloc⟩
      fuel (mkInitState start csvUrls)).rows = [] <;>
    simp [runCrawlMain, h]

lemma runCrawlMain_collected (start : String) (csvUrls : List String)
    (w : FetchWorld) (maxRecords maxPages fuel : Nat) :
    (runCrawlMain start csvUrls w maxRecords maxPages fuel).collected =
      (crawl w ⟨maxRecords, maxPages, (urlparseWith "" start).netloc⟩ fuel
        (mkInitState start csvUrls)).collected := by
  by_cases h : (crawl w ⟨maxRecords, maxPages, (urlparseWith "" start).netloc⟩
      fuel (mkInitState start csvUrls)).rows = [] <;>
    simp [runCrawlMain, h]

/-! ## Claim C1 -/

/-- C1 (counterexample): the canonical URL `http://a` is passed to the
fetch tier twice in one crawl run — once as the raw seed `http://a/`
(which `main` enqueues without canonicalization) and once as the
normalized link `http://a` — refuting that each canonical URL (trailing
slash stripped, fragment removed) is fetched at most once. -/
theorem c1_counterexample :
    (runCrawlMain "http://a/" [] crawlWorldDup 5 10 10).fetched =
      ["http://a/", "http://a"] ∧
    ((runCrawlMain "http://a/" [] crawlWorldDup 5 10 10).fetched.map
      canonicalUrl).count "http://a" = 2 := by decide

/-- C1 (amended): no URL string is passed to the fetch tier twice in a
crawl run — the dequeued URL joins the visited set before the fetch and a
visited URL is skipped at dequeue — so the fetch log is duplicate-free at
the level of exact URL strings; only the seed, which is enqueued without
canonicalization, can make the same canonical URL be fetched under two
different strings. -/
theorem c1_fetched_urls_nodup (start : String) (csvUrls : List String)
    (w : FetchWorld) (maxRecords maxPages fuel : Nat) :
    (runCrawlMain start csvUrls w maxRecords maxPages fuel).fetched.Nodup := by
  rw [runCrawlMain_fetched]
  exact (crawl_fetched_inv w _ fuel (mkInitState start csvUrls)
    (by simp [mkInitState]) (by simp [mkInitState])).1

/-! ## Claim C2 -/

/-- C2 (counterexample): a crawl run whose prior-run CSV already holds two
URLs, run with `MAX_RECORDS = 1`, ends with `len(articles) = 2 > 1`: the
seeded article set is never trimmed to `MAX_RECORDS`, so the length of the
article set can exceed `MAX_RECORDS`. -/
theorem c2_counterexample :
    ¬((runCrawlMain "http://a" ["u1", "u2"] crawlWorldNone 1 10 5).articles.length
      ≤ 1) := by decide

/-- C2 (amended): whenever the article set starts within `MAX_RECORDS`
(in particular on a fresh crawl with no prior CSV), it never exceeds
`MAX_RECORDS`: the loop runs only while `len(articles) < MAX_RECORDS`
(and the queue is non-empty and `pages_visited < MAX_PAGES_TO_VISIT`),
and each iteration adds at most one URL to the article set. -/
theorem c2_articles_length_bounded (start : String) (csvUrls : List String)
    (w : FetchWorld) (maxRecords maxPages fuel : Nat)
    (h : (mkInitState start csvUrls).articles.length ≤ maxRecords) :
    (runCrawlMain start csvUrls w maxRecords maxPages fuel).articles.length ≤
      maxRecords := by
  rw [runCrawlMain_articles]
  exact crawl_articles_bound w _ fuel _ h

/-- Witness for C2: a fresh crawl with `MAX_RECORDS = 1` on the two-page
site stays within the bound. -/
theorem c2_witness :
    (mkInitState "http://a/" [] ).articles.length ≤ 1 ∧
    (runCrawlMain "http://a/" [] crawlWorldDup 1 10 10).articles.length ≤ 1 :=
  ⟨by decide, c2_articles_length_bounded "http://a/" [] crawlWorldDup 1 10 10
    (by decide)⟩

/-! ## Claim C6 -/

/-- C6: a fetched article page on which no optional selector (author,
date, tags, meta description) matches still yields a `ContentRecord` whose
`title` and `url` are populated and whose optional fields are all the
empty string, and the article branch of the crawl loop appends that record
to the output buffer rather than dropping it. -/
theorem c6_partial_record_persisted (page : Html) (url : String)
    (s : CrawlState) (t : String)
    (hh1 : page.h1 = some t) (ht : t ≠ "")
    (hmeta : page.metaDesc = none) (hauthor : page.authorSel = none)
    (htime : page.timeSel = none) (htags : page.tagSel = [])
    (hart : articleLike url = true)
    (hnot : rstripSlashes url ∉ s.articles) :
    ∃ r : ContentRecord, parse_article page url = some r ∧ r.title = t ∧
      t ≠ "" ∧ r.url = url ∧ r.author = "" ∧ r.date = "" ∧ r.excerpt = "" ∧
      r.tags = "" ∧ (collectArticle page url s).rows = s.rows ++ [r] := by
  refine ⟨⟨t, url, "", "", "History", "", page.textLen, "", ""⟩, ?_, rfl, ht,
    rfl, rfl, rfl, rfl, rfl, ?_⟩
  · simp [parse_article, hh1, hmeta, hauthor, htime, htags]
  · simp [collectArticle, hart, hnot, parse_article, hh1, hmeta, hauthor,
      htime, htags]

/-- Witness for C6: the bare article page with only an `h1` heading. -/
theorem c6_witness :
    ∃ r : ContentRecord,
      parse_article pageBare "http://s/article/r" = some r ∧ r.title = "Rome" ∧
      ("Rome" : String) ≠ "" ∧ r.url = "http://s/article/r" ∧ r.author = "" ∧
      r.date = "" ∧ r.excerpt = "" ∧ r.tags = "" ∧
      (collectArticle pageBare "http://s/article/r"
        (mkInitState "http://s" [])).rows =
        (mkInitState "http://s" []).rows ++ [r] :=
  c6_partial_record_persisted pageBare "http://s/article/r"
    (mkInitState "http://s" []) "Rome" rfl (by decide) rfl rfl rfl rfl
    (by decide) (by decide)

/-! ## Claim C7 -/

/-- C7 (counterexample): at startup only the article set is seeded from
the prior CSV; the visited set starts empty, so the previously collected
URL `http://s/articles/p` is passed to the fetch tier again on the resumed
crawl — refuting that prior URLs seed both the VisitedSet and the
ArticleSet and are never re-fetched. -/
theorem c7_counterexample :
    (mkInitState "http://s/articles/p" ["http://s/articles/p"]).visited = [] ∧
    (mkInitState "http://s/articles/p" ["http://s/articles/p"]).articles =
      ["http://s/articles/p"] ∧
    (runCrawlMain "http://s/articles/p" ["http://s/articles/p"]
      crawlWorldResume 10 10 5).fetched = ["http://s/articles/p"] := by decide

/-- C7 (amended): the prior CSV seeds only the article set (with trailing
slashes stripped); the visited set starts empty, so a previously collected
URL may be fetched again, but it is never re-collected: no URL of the
seeded article set is ever newly added to the article set during the
resumed crawl. -/
theorem c7_resumed_crawl_never_recollects (start : String)
    (csvUrls : List String) (w : FetchWorld) (maxRecords maxPages fuel : Nat) :
    (mkInitState start csvUrls).visited = [] ∧
    ∀ u ∈ (mkInitState start csvUrls).articles,
      u ∉ (runCrawlMain start csvUrls w maxRecords maxPages fuel).collected := by
  refine ⟨rfl, ?_⟩
  intro u hu
  rw [runCrawlMain_collected]
  have h := crawl_collected_inv w
    ⟨maxRecords, maxPages, (urlparseWith "" start).netloc⟩
    (mkInitState start csvUrls).articles fuel (mkInitState start csvUrls)
    (List.Subset.refl _) (by simp [mkInitState])
  exact fun hmem => (h u hmem) hu

/-- Witness for C7: the previously collected URL is in the seeded article
set and is absent from the resumed crawl's newly-collected log. -/
theorem c7_witness :
    "http://s/articles/p" ∈
      (mkInitState "http://s/articles/p" ["http://s/articles/p"]).articles ∧
    "http://s/articles/p" ∉
      (runCrawlMain "http://s/articles/p" ["http://s/articles/p"]
        crawlWorldResume 10 10 5).collected :=
  ⟨by decide,
    (c7_resumed_crawl_never_recollects "http://s/articles/p"
      ["http://s/articles/p"] crawlWorldResume 10 10 5).2
      "http://s/articles/p" (by decide)⟩

/-! ## Durability layer lemmas -/

lemma goodsOf_cons_good (d : Doc) (ls : List Line) :
    goodsOf (Line.good d :: ls) = d :: goodsOf ls := rfl

lemma goodsOf_cons_bad (ls : List Line) :
    goodsOf (Line.bad :: ls) = goodsOf ls := rfl

lemma goodsOf_cons_blank (ls : List Line) :
    goodsOf (Line.blank :: ls) = goodsOf ls := rfl

lemma mem_goodsOf (r : Doc) : ∀ (lines : List Line),
    r ∈ goodsOf lines ↔ Line.good r ∈ lines
  | [] => by simp [goodsOf]
  | Line.good d :: ls => by
    rw [goodsOf_cons_good]
    simp [mem_goodsOf r ls]
  | Line.bad :: ls => by
    rw [goodsOf_cons_bad]
    simp [mem_goodsOf r ls]
  | Line.blank :: ls => by
    rw [goodsOf_cons_blank]
    simp [mem_goodsOf r ls]

lemma goodsOf_append (l₁ l₂ : List Line) :
    goodsOf (l₁ ++ l₂) = goodsOf l₁ ++ goodsOf l₂ :=
  List.filterMap_append _ _ _

lemma parseLines_ok_of_no_bad : ∀ (lines : List Line), Line.bad ∉ lines →
    parseLines (dropBlanks lines) = Except.ok (goodsOf lines)
  | [], _ => rfl
  | Line.good d :: ls, h => by
    have ih := parseLines_ok_of_no_bad ls (fun hm => h (List.mem_cons_of_mem _ hm))
    rw [goodsOf_cons_good]
    simp only [dropBlanks, parseLines, parseLine, ih]
  | Line.bad :: ls, h => absurd (List.mem_cons_self _ _) h
  | Line.blank :: ls, h => by
    have ih := parseLines_ok_of_no_bad ls (fun hm => h (List.mem_cons_of_mem _ hm))
    rw [goodsOf_cons_blank]
    simpa only [dropBlanks] using ih

lemma parseLines_error_of_bad : ∀ (lines : List Line), Line.bad ∈ lines →
    parseLines (dropBlanks lines) = Except.error ()
  | [], h => absurd h (List.not_mem_nil _)
  | Line.good d :: ls, h => by
    have hm : Line.bad ∈ ls := by
      rcases List.mem_cons.mp h with h' | h'
      · exact absurd h' (by simp)
      · exact h'
    have ih := parseLines_error_of_bad ls hm
    simp only [dropBlanks, parseLines, parseLine, ih]
  | Line.bad :: ls, _ => by
    simp only [dropBlanks, parseLines, parseLine]
  | Line.blank :: ls, h => by
    have hm : Line.bad ∈ ls := by
      rcases List.mem_cons.mp h with h' | h'
      · exact absurd h' (by simp)
      · exact h'
    have ih := parseLines_error_of_bad ls hm
    simpa only [dropBlanks] using ih

lemma load_fallback_of_no_bad (lines : List Line) (imp : Option (List Line))
    (h : Line.bad ∉ lines) :
    load_fallback ⟨some lines, imp⟩ = Except.ok (goodsOf lines) := by
  simp [load_fallback, parseLines_ok_of_no_bad lines h]

lemma load_fallback_of_bad (lines : List Line) (imp : Option (List Line))
    (h : Line.bad ∈ lines) :
    load_fallback ⟨some lines, imp⟩ = Except.error () := by
  simp [load_fallback, parseLines_error_of_bad lines h]

lemma chunksFuel_flatten (b : Nat) (hb : 0 < b) : ∀ (fuel : Nat) (l : List Doc),
    l.length ≤ fuel → (chunksFuel b fuel l).flatten = l
  | 0, l => by
    intro h
    have : l = [] := List.eq_nil_of_length_eq_zero (Nat.le_zero.mp h)
    subst this
    rfl
  | fuel + 1, [] => fun _ => rfl
  | fuel + 1, a :: t => by
    intro h
    have h1 : t.length ≤ fuel := Nat.le_of_succ_le_succ (by simpa using h)
    have ht : (t.drop (b - 1)).length ≤ fuel := by
      calc (t.drop (b - 1)).length ≤ t.length := by
            rw [List.length_drop]; omega
        _ ≤ fuel := h1
    have ih := chunksFuel_flatten b hb fuel (t.drop (b - 1)) ht
    simp only [chunksFuel, List.flatten_cons, ih, List.cons_append]
    rw [List.take_append_drop]

lemma chunks_flatten (b : Nat) (hb : 0 < b) (l : List Doc) :
    (chunks b l).flatten = l :=
  chunksFuel_flatten b hb l.length l (Nat.le_refl _)

lemma chunksFuel_length_le (b : Nat) (hb : 0 < b) : ∀ (fuel : Nat)
    (l : List Doc) (c : List Doc), c ∈ chunksFuel b fuel l → c.length ≤ b
  | 0, l, c => by
    intro h
    simp [chunksFuel] at h
  | fuel + 1, [], c => by
    intro h
    simp [chunksFuel] at h
  | fuel + 1, a :: t, c => by
    intro h
    simp only [chunksFuel, List.mem_cons] at h
    rcases h with h | h
    · subst h
      simp only [List.length_cons]
      have : (t.take (b - 1)).length ≤ b - 1 := by
        rw [List.length_take]; omega
      omega
    · exact chunksFuel_length_le b hb fuel (t.drop (b - 1)) c h

lemma applyUpserts_append (key : Doc → MongoKey) (st : MongoStore)
    (l₁ l₂ : List Doc) :
    applyUpserts key st (l₁ ++ l₂) = applyUpserts key (applyUpserts key st l₁) l₂ :=
  List.foldl_append _ _ _ _

lemma foldl_applyUpserts_flatten (key : Doc → MongoKey) :
    ∀ (L : List (List Doc)) (st : MongoStore),
    L.foldl (fun acc batch => applyUpserts key acc batch) st =
      applyUpserts key st L.flatten
  | [], st => rfl
  | c :: L, st => by
    simp only [List.foldl_cons, List.flatten_cons, applyUpserts_append]
    exact foldl_applyUpserts_flatten key L (applyUpserts key st c)

lemma try_import_eq_applyUpserts (st : MongoStore) (records : List Doc)
    (b : Nat) (hb : 0 < b) :
    try_import st records b = applyUpserts tryImportKey st records := by
  unfold try_import
  rw [foldl_applyUpserts_flatten, chunks_flatten b hb]

lemma mem_upsertOne_self : ∀ (st : MongoStore) (k : MongoKey) (d : Doc),
    d ∈ upsertOne st k d
  | [], _, _ => List.mem_singleton_self _
  | x :: xs, k, d => by
    by_cases h : matchesKey k x = true
    · simp [upsertOne, h]
    · simp only [upsertOne, h, if_false]
      exact List.mem_cons_of_mem _ (mem_upsertOne_self xs k d)

lemma mem_upsertOne_of_not_matches : ∀ (st : MongoStore) (k : MongoKey)
    (r d : Doc), d ∈ st → matchesKey k d = false → d ∈ upsertOne st k r
  | [], _, _, _ => fun h _ => absurd h (List.not_mem_nil _)
  | x :: xs, k, r, d => by
    intro hmem hkey
    by_cases h : matchesKey k x = true
    · simp only [upsertOne, h, if_true]
      rcases List.mem_cons.mp hmem with h' | h'
      · subst h'
        rw [h] at hkey
        cases hkey
      · exact List.mem_cons_of_mem _ h'
    · simp only [upsertOne, h, if_false]
      rcases List.mem_cons.mp hmem with h' | h'
      · subst h'
        exact List.mem_cons_self _ _
      · exact List.mem_cons_of_mem _ (mem_upsertOne_of_not_matches xs k r d h' hkey)

lemma mem_applyUpserts_of_not_matches (key : Doc → MongoKey) :
    ∀ (l : List Doc) (st : MongoStore) (d : Doc), d ∈ st →
      (∀ r ∈ l, matchesKey (key r) d = false) → d ∈ applyUpserts key st l
  | [], _, _ => fun h _ => h
  | r :: rs, st, d => by
    intro hmem hl
    simp only [applyUpserts, List.foldl_cons]
    exact mem_applyUpserts_of_not_matches key rs _ d
      (mem_upsertOne_of_not_matches st (key r) r d hmem (hl r (List.mem_cons_self _ _)))
      (fun r' hr' => hl r' (List.mem_cons_of_mem _ hr'))

lemma mem_applyUpserts_middle (key : Doc → MongoKey) (st : MongoStore)
    (l₁ l₂ : List Doc) (d : Doc)
    (hl : ∀ r ∈ l₂, matchesKey (key r) d = false) :
    d ∈ applyUpserts key st (l₁ ++ d :: l₂) := by
  rw [applyUpserts_append]
  have hstep : applyUpserts key (applyUpserts key st l₁) (d :: l₂) =
      applyUpserts key (upsertOne (applyUpserts key st l₁) (key d) d) l₂ := rfl
  rw [hstep]
  exact mem_applyUpserts_of_not_matches key l₂ _ d
    (mem_upsertOne_self _ (key d) d) hl

lemma matchesKey_tryImportKey_self (d : Doc) :
    matchesKey (tryImportKey d) d = true := by
  unfold tryImportKey
  split <;> simp [matchesKey]

lemma upsertOne_idem : ∀ (st : MongoStore) (k : MongoKey) (d : Doc),
    matchesKey k d = true → upsertOne (upsertOne st k d) k d = upsertOne st k d
  | [], k, d => fun h => by simp [upsertOne, h]
  | x :: xs, k, d => by
    intro h
    by_cases hx : matchesKey k x = true
    · simp [upsertOne, hx, h]
    · rw [Bool.not_eq_true] at hx
      simp only [upsertOne, hx, Bool.false_eq_true, if_false]
      rw [upsertOne_idem xs k d h]

/-! ## Claim C3 -/

/-- C3: a record in the durable log, reconciled by a run whose configured
store is reachable, ends up in that store; the run renames the log to its
Imported form (`db_fallback.imported.jsonl`), and a subsequent
reconciliation run against the renamed state loads zero records and
touches no store.  The record is required to be well-defined as a store
document: no later log record upserts over its filter. -/
theorem c3_durable_roundtrip (uri : String) (b : Nat) (lUp : Bool)
    (lines l₁ l₂ : List Line) (imp : Option (List Line))
    (pSt lSt : MongoStore) (d : Doc)
    (huri : uri ≠ "") (hb : 0 < b)
    (hsplit : lines = l₁ ++ Line.good d :: l₂)
    (hnobad : Line.bad ∉ lines)
    (hnolater : ∀ r : Doc, Line.good r ∈ l₂ →
      matchesKey (tryImportKey r) d = false) :
    importMain uri b true lUp ⟨some lines, imp⟩ pSt lSt =
      Except.ok ⟨⟨none, some lines⟩, try_import pSt (goodsOf lines) b, lSt,
        [Tier.primaryT], ImportOutcome.primaryOk⟩ ∧
    d ∈ try_import pSt (goodsOf lines) b ∧
    importMain uri b true lUp ⟨none, some lines⟩
        (try_import pSt (goodsOf lines) b) lSt =
      Except.ok ⟨⟨none, some lines⟩, try_import pSt (goodsOf lines) b, lSt,
        [], ImportOutcome.noRecords⟩ := by
  have hload := load_fallback_of_no_bad lines imp hnobad
  have hgoods : goodsOf lines = goodsOf l₁ ++ d :: goodsOf l₂ := by
    rw [hsplit, goodsOf_append, goodsOf_cons_good]
  have hne : goodsOf lines ≠ [] := by
    rw [hgoods]
    exact fun h => by simp at h
  refine ⟨?_, ?_, ?_⟩
  · unfold importMain
    rw [hload]
    simp only [hne, if_false, huri, if_true, and_true, true_and, if_pos trivial]
    simp [renameImported, huri]
  · rw [try_import_eq_applyUpserts _ _ b hb, hgoods]
    exact mem_applyUpserts_middle tryImportKey pSt (goodsOf l₁) (goodsOf l₂) d
      (fun r hr => hnolater r ((mem_goodsOf r l₂).mp hr))
  · unfold importMain
    simp [load_fallback]

/-- Witness for C3: a one-record log reconciled against a reachable
configured store. -/
theorem c3_witness :
    importMain "m" 2 true false ⟨some [Line.good dEx], none⟩ [] [] =
      Except.ok ⟨⟨none, some [Line.good dEx]⟩,
        try_import [] (goodsOf [Line.good dEx]) 2, [],
        [Tier.primaryT], ImportOutcome.primaryOk⟩ ∧
    dEx ∈ try_import [] (goodsOf [Line.good dEx]) 2 ∧
    importMain "m" 2 true false ⟨none, some [Line.good dEx]⟩
        (try_import [] (goodsOf [Line.good dEx]) 2) [] =
      Except.ok ⟨⟨none, some [Line.good dEx]⟩,
        try_import [] (goodsOf [Line.good dEx]) 2, [],
        [], ImportOutcome.noRecords⟩ :=
  c3_durable_roundtrip "m" 2 false [Line.good dEx] [] [] none [] [] dEx
    (by decide) (by decide) rfl (by decide) (fun r hr => absurd hr (by simp))

/-! ## Claim C4 -/

/-- C4 (counterexample): `save_fallback` opens the log with mode `"w"`:
after a Degraded transition that writes the pending record `dNew`, the
line for `dOld` that was in the log beforehand is gone — refuting that
lines already present are still present, unchanged, after the write. -/
theorem c4_counterexample :
    fsPrior.fallback = some [Line.good dOld] ∧
    (storeMain true false [dNew] fsPrior []).fs.fallback =
      some [Line.good dNew] ∧
    Line.good dOld ∉ [Line.good dNew] := by decide

/-- C4 (amended): a Degraded transition truncates and rewrites the
durable log: afterwards the log holds exactly the current run's pending
records, one JSON object per line; previously present lines are not
preserved.  The rename target and the store are untouched. -/
theorem c4_degraded_overwrites_log (rows : List Doc) (fs : FS)
    (st : MongoStore) (hrows : rows ≠ []) :
    (storeMain true false rows fs st).fs.fallback = some (rows.map Line.good) ∧
    (storeMain true false rows fs st).fs.imported = fs.imported ∧
    (storeMain true false rows fs st).store = st := by
  simp [storeMain, hrows, save_fallback]

/-- Witness for C4: the single-record Degraded run. -/
theorem c4_witness :
    (storeMain true false [dNew] fsPrior []).fs.fallback =
      some ([dNew].map Line.good) ∧
    (storeMain true false [dNew] fsPrior []).fs.imported = fsPrior.imported ∧
    (storeMain true false [dNew] fsPrior []).store = [] :=
  c4_degraded_overwrites_log [dNew] fsPrior [] (by decide)

/-! ## Claim C5 -/

/-- C5 (counterexample): a log holding a malformed line followed by a
well-formed record makes the reconciliation run raise out of
`load_fallback` — the malformed line is not skipped, the well-formed
record is not reconciled, and no skipped-line count is surfaced. -/
theorem c5_counterexample :
    importMain "m" 2 true true fsBad [] [] = Except.error () := rfl

/-- C5 (amended): a reconciliation run over a log containing any
malformed JSON line raises `json.loads`'s error out of `main` before any
store is contacted; it does not skip the line, does not reconcile the
remaining well-formed records, and surfaces no count of skipped lines. -/
theorem c5_malformed_line_aborts (uri : String) (b : Nat) (pUp lUp : Bool)
    (lines : List Line) (imp : Option (List Line)) (pSt lSt : MongoStore)
    (hbad : Line.bad ∈ lines) :
    importMain uri b pUp lUp ⟨some lines, imp⟩ pSt lSt = Except.error () := by
  unfold importMain
  rw [load_fallback_of_bad lines imp hbad]

/-- Witness for C5: the single-malformed-line log. -/
theorem c5_witness :
    importMain "m" 2 true true ⟨some [Line.bad], none⟩ [] [] =
      Except.error () :=
  c5_malformed_line_aborts "m" 2 true true [Line.bad] none [] [] (by decide)

/-! ## Claim C8 -/

/-- C8 (counterexample): with both stores unreachable and one pending
record, the reconciliation run attempts the configured tier exactly once
and the local tier exactly once, then ends Degraded — there is no retry
of either tier before it is declared failed, refuting the
retry-with-exponential-backoff claim. -/
theorem c8_counterexample :
    importMain "m" 2 false false fsEx [] [] =
      Except.ok ⟨fsEx, [], [], [Tier.primaryT, Tier.localT],
        ImportOutcome.degraded⟩ ∧
    [Tier.primaryT, Tier.localT].count Tier.primaryT = 1 ∧
    [Tier.primaryT, Tier.localT].count Tier.localT = 1 :=
  ⟨rfl, by decide, by decide⟩

/-- C8 (amended): neither ingestion nor reconciliation retries a store
tier: every reconciliation run attempts each tier at most once (escalating
immediately on failure), and a `store_to_db` ingestion run opens at most
one store connection before falling back to the durable log.  No backoff
exists. -/
theorem c8_no_retries_single_attempt (uri : String) (b : Nat)
    (pUp lUp : Bool) (fs : FS) (pSt lSt : MongoStore) (r : ImportResult)
    (h : importMain uri b pUp lUp fs pSt lSt = Except.ok r) :
    r.attempts.count Tier.primaryT ≤ 1 ∧ r.attempts.count Tier.localT ≤ 1 ∧
    ∀ (mongoSet storeUp : Bool) (rows : List Doc) (fs2 : FS)
      (st : MongoStore), (storeMain mongoSet storeUp rows fs2 st).connectAttempts ≤ 1 := by
  refine ?_
  have hstore : ∀ (mongoSet storeUp : Bool) (rows : List Doc) (fs2 : FS)
      (st : MongoStore),
      (storeMain mongoSet storeUp rows fs2 st).connectAttempts ≤ 1 := by
    intro mongoSet storeUp rows fs2 st
    unfold storeMain
    split_ifs <;> simp
  unfold importMain at h
  rcases hl : load_fallback fs with e | records <;> rw [hl] at h
  · cases h
  · dsimp only at h
    by_cases hrec : records = []
    · rw [if_pos hrec, Except.ok.injEq] at h
      subst h
      exact ⟨by simp, by simp, hstore⟩
    · rw [if_neg hrec] at h
      by_cases h1 : uri ≠ "" ∧ pUp = true
      · rw [if_pos h1, Except.ok.injEq] at h
        subst h
        exact ⟨by simp, by simp, hstore⟩
      · rw [if_neg h1] at h
        by_cases hlU : lUp = true
        · rw [if_pos hlU, Except.ok.injEq] at h
          subst h
          refine ⟨?_, ?_, hstore⟩ <;>
            rcases ne_or_eq uri "" with hu | hu <;> simp [hu]
        · rw [if_neg hlU, Except.ok.injEq] at h
          subst h
          refine ⟨?_, ?_, hstore⟩ <;>
            rcases ne_or_eq uri "" with hu | hu <;> simp [hu]

/-- Witness for C8: the Degraded double-failure run from the
counterexample satisfies the at-most-one-attempt bounds. -/
theorem c8_witness :
    ([Tier.primaryT, Tier.localT] : List Tier).count Tier.primaryT ≤ 1 ∧
    ([Tier.primaryT, Tier.localT] : List Tier).count Tier.localT ≤ 1 ∧
    ∀ (mongoSet storeUp : Bool) (rows : List Doc) (fs2 : FS)
      (st : MongoStore),
      (storeMain mongoSet storeUp rows fs2 st).connectAttempts ≤ 1 :=
  c8_no_retries_single_attempt "m" 2 false false fsEx [] []
    ⟨fsEx, [], [], [Tier.primaryT, Tier.localT], ImportOutcome.degraded⟩ rfl

/-! ## Claim C9 -/

/-- C9 (counterexample): the primary ingestion path (`upsert_to_mongo`)
builds its filter as `{"url": r.get("url")}` even when the `url` field is
empty — not `{"title": ...}` — so two distinct url-less records collapse
into a single stored document, refuting the claimed title fallback for
the ingestion layer's store writes. -/
theorem c9_counterexample :
    storeToDbKey dNoUrlA = MongoKey.byUrl "" ∧
    storeToDbKey dNoUrlA ≠ MongoKey.byTitle "A" ∧
    upsert_to_mongo [dNoUrlA, dNoUrlB] [] = [dNoUrlB] := by decide

/-- C9 (amended): the reconciliation importer (`try_import`) does build
update-or-insert operations keyed by the record's `url` when non-empty and
its `title` otherwise, applied in order in batches of at most
`DB_BATCH_SIZE`, and replaying a record is idempotent; the `store_to_db`
primary path instead always keys by `url`, even when empty. -/
theorem c9_reconciliation_upserts (st : MongoStore) (records : List Doc)
    (b : Nat) (hb : 0 < b) :
    try_import st records b = applyUpserts tryImportKey st records ∧
    (∀ c ∈ chunks b records, c.length ≤ b) ∧
    (∀ d : Doc, d.url ≠ "" → tryImportKey d = MongoKey.byUrl d.url) ∧
    (∀ d : Doc, d.url = "" → tryImportKey d = MongoKey.byTitle d.title) ∧
    (∀ (st2 : MongoStore) (d : Doc),
      applyUpserts tryImportKey st2 [d, d] = applyUpserts tryImportKey st2 [d]) := by
  refine ⟨try_import_eq_applyUpserts st records b hb,
    fun c hc => chunksFuel_length_le b hb records.length records c hc,
    fun d hd => by simp [tryImportKey, hd],
    fun d hd => by simp [tryImportKey, hd],
    fun st2 d => ?_⟩
  show upsertOne (upsertOne st2 (tryImportKey d) d) (tryImportKey d) d =
    upsertOne st2 (tryImportKey d) d
  exact upsertOne_idem st2 (tryImportKey d) d (matchesKey_tryImportKey_self d)

/-- Witness for C9: batch size two over a one-record list. -/
theorem c9_witness :
    try_import [] [dEx] 2 = applyUpserts tryImportKey [] [dEx] ∧
    (∀ c ∈ chunks 2 [dEx], c.length ≤ 2) ∧
    (∀ d : Doc, d.url ≠ "" → tryImportKey d = MongoKey.byUrl d.url) ∧
    (∀ d : Doc, d.url = "" → tryImportKey d = MongoKey.byTitle d.title) ∧
    (∀ (st2 : MongoStore) (d : Doc),
      applyUpserts tryImportKey st2 [d, d] = applyUpserts tryImportKey st2 [d]) :=
  c9_reconciliation_upserts [] [dEx] 2 (by decide)

/-! ## Claim C10 -/

lemma dropWhile_self_idem (p : Char → Bool) : ∀ (l : List Char),
    List.dropWhile p (List.dropWhile p l) = List.dropWhile p l
  | [] => rfl
  | a :: l => by
    by_cases h : p a = true
    · simp only [List.dropWhile_cons, h, if_true]
      exact dropWhile_self_idem p l
    · simp only [List.dropWhile_cons, h, if_false]
      simp [h]

lemma rstripSlashes_idem (s : String) :
    rstripSlashes (rstripSlashes s) = rstripSlashes s := by
  simp only [rstripSlashes, rstripSlashesL, List.reverse_reverse]
  rw [dropWhile_self_idem]

lemma normalize_url_rstrip_fixed (href base w : String)
    (h : normalize_url href base = some w) : rstripSlashes w = w := by
  unfold normalize_url at h
  by_cases hh : href = ""
  · rw [if_pos hh] at h
    cases h
  · rw [if_neg hh, Option.some.injEq] at h
    rw [← h, rstripSlashes_idem]

lemma urlparseWith_explicit_scheme (w sch rest : String)
    (hs : splitScheme w = some (sch, rest)) (d : String) :
    urlparseWith d w = urlparseWith "" w := by
  unfold urlparseWith
  rw [hs]

lemma urlparseWith_scheme_eq (w sch rest : String)
    (hs : splitScheme w = some (sch, rest)) (d : String) :
    (urlparseWith d w).scheme = sch := by
  unfold urlparseWith
  rw [hs]

/-- C10 (counterexample): `normalize_url` is not idempotent, and its
output can retain a fragment: for the fragment-only href `#x` against the
base `http://a#f`, `urljoin(base, "")` returns the base verbatim —
fragment included — so the first normalization yields `http://a#f`, and
normalizing that same string again strips the fragment and yields
`http://a`. -/
theorem c10_counterexample :
    normalize_url "#x" "http://a#f" = some "http://a#f" ∧
    normalize_url "http://a#f" "http://a#f" = some "http://a" ∧
    ("http://a" : String) ≠ "http://a#f" := by decide

/-- C10 (amended): `normalize_url` is idempotent on every input whose
first output is a fragment-free URL with an explicit scheme recognized as
relative-capable and netloc-carrying (e.g. `http`/`https`), a non-empty
host part, and a canonical re-serialization — which holds for every link
the crawler normalizes from an ordinary fragment-free page URL.  The
general claim fails only when the output retains a fragment (possible
when the href's fragment-stripped form is empty and the base URL itself
carries a fragment). -/
theorem c10_normalize_idempotent (href base w sch rest : String)
    (h1 : normalize_url href base = some w)
    (h2 : splitFragment w = w)
    (hs : splitScheme w = some (sch, rest))
    (hrel : sch ∈ usesRelative) (hnl : sch ∈ usesNetloc)
    (hnet : (urlparseWith "" w).netloc ≠ "")
    (hrt : urlunparse (urlparseWith "" w) = w) :
    normalize_url w base = some w := by
  have hw : w ≠ "" := by
    intro he
    subst he
    rw [show splitScheme "" = none from rfl] at hs
    cases hs
  have hfix : rstripSlashes w = w := normalize_url_rstrip_fixed href base w h1
  unfold normalize_url
  rw [if_neg hw, h2]
  suffices hj : urljoin base w = w by rw [hj, hfix]
  unfold urljoin
  by_cases hbase : base = ""
  · rw [if_pos hbase]
  · rw [if_neg hbase, if_neg hw]
    dsimp only
    rw [urlparseWith_explicit_scheme w sch rest hs,
      urlparseWith_scheme_eq w sch rest hs]
    by_cases hbs : sch = (urlparseWith "" base).scheme
    · rw [if_neg (by push_neg; exact ⟨hbs, hrel⟩)]
      rw [if_pos ⟨hnl, hnet⟩]
      exact hrt
    · rw [if_pos (Or.inl hbs)]

/-- Witness for C10: normalizing `p` against `http://h` gives
`http://h/p`, and normalizing that output again returns it unchanged. -/
theorem c10_witness : normalize_url "http://h/p" "http://h" = some "http://h/p" :=
  c10_normalize_idempotent "p" "http://h" "http://h/p" "http" "//h/p"
    (by decide) (by decide) (by decide) (by decide) (by decide) (by decide)
    (by decide)
